import Mathlib

/-!
Shallow embedding of `src/pass_1.rs` of the asm6502 repository: the first
pass of a 6502 assembler.

The parser data types (`Address`, `AddressingMode`, `ImmediateValue`,
`Pragma`, `LineValue`, `ParsedLine`) are declared in the parser module,
which is not among the sources; they are reproduced from the
specification's data model (section 3), which matches their use in
`pass_1.rs`.  `u16` arithmetic is modelled on `Nat`; the `+=` updates of
the location counter abort on overflow past `0xFFFF` (Rust debug-profile
overflow behaviour; the specification leaves wrap-around undefined).
Rust panics and returned `ParseError`s are both modelled as
`Except.error`; the lexer position carried by a real `ParseError` is
omitted and only the message text is kept.  The `HashMap` symbol table is
modelled as an association list with unique keys.
-/

deriving instance DecidableEq for Except

namespace Asm6502

/-- An address operand: a 16-bit literal or a label name. -/
inductive Address where
  | Literal (n : Nat)
  | Label (l : String)
deriving DecidableEq, Repr

/-- An immediate operand: an 8-bit literal, a label, or the low/high byte of a label. -/
inductive ImmediateValue where
  | Literal (n : Nat)
  | Label (l : String)
  | LowByte (l : String)
  | HighByte (l : String)
deriving DecidableEq, Repr

/-- The addressing mode of an instruction, carrying its operand where applicable. -/
inductive AddressingMode where
  | Implied
  | Accumulator
  | Immediate (i : ImmediateValue)
  | ZeroPage (a : Address)
  | ZeroPageX (a : Address)
  | ZeroPageY (a : Address)
  | Absolute (a : Address)
  | AbsoluteX (a : Address)
  | AbsoluteY (a : Address)
  | Indirect (a : Address)
  | IndirectX (a : Address)
  | IndirectY (a : Address)
  | Relative (a : Address)
deriving DecidableEq, Repr

/-- A parsed instruction: mnemonic string (`opcode` field in the source) and addressing mode. -/
structure ParsedInstruction where
  opcode : String
  addr_mode : AddressingMode
deriving DecidableEq, Repr

/-- An assembler pragma. -/
inductive Pragma where
  | Byte (b : Nat)
  | Bytes (bs : List Nat)
  | Word (a : Address)
  | Origin (a : Address)
  | Define (label : String) (a : Address)
  | Include (path : String)
deriving DecidableEq, Repr

/-- The value of a parsed line. -/
inductive LineValue where
  | Instruction (i : ParsedInstruction)
  | Pragma (p : Pragma)
  | None
deriving DecidableEq, Repr

/-- A parsed line: an (optionally empty) label and a line value. -/
structure ParsedLine where
  label : String
  value : LineValue
deriving DecidableEq, Repr

/-- The value of an argument of an instruction (`InstructionArg` in `pass_1.rs`). -/
inductive InstructionArg where
  | NoArgs
  | ByteArg (b : Nat)
  | ByteLabelArg (l : String)
  | ByteLabelLowArg (l : String)
  | ByteLabelHighArg (l : String)
  | WordArg (w : Nat)
  | WordLabelArg (l : String)
deriving DecidableEq, Repr

/-- An annotated line of assembly (`AnnotatedLine` in `pass_1.rs`). -/
structure AnnotatedLine where
  addr : Nat
  opcode : Nat
  arg : InstructionArg
deriving DecidableEq, Repr

/-- The result of the first pass (`FirstPassResult` in `pass_1.rs`).  The
`HashMap` symbol table is modelled as an association list with unique keys. -/
structure FirstPassResult where
  lines : List AnnotatedLine
  symbol_table : List (String × Nat)
deriving DecidableEq, Repr

/-- Errors of the first pass: a returned `ParseError` (message only; the
lexer position is omitted) or a Rust panic. -/
inductive PassError where
  | parseError (msg : String)
  | panicked (msg : String)
deriving DecidableEq, Repr

/-- Lookup in the association-list model of `HashMap<String, u16>`. -/
def lookupSym : List (String × Nat) → String → Option Nat
  | [], _ => none
  | (k, v) :: rest, key => if k = key then some v else lookupSym rest key

/-- Adds a symbol to the symbol table (`add_symbol` in `pass_1.rs`); a
repeated key is a panic. -/
def add_symbol (symbol_table : List (String × Nat)) (key : String) (value : Nat) :
    Except PassError (List (String × Nat)) :=
  if (lookupSym symbol_table key).isSome then
    .error (.panicked "Repeated symbol")
  else
    .ok ((key, value) :: symbol_table)

/-- Modelled from the spec: the error raised by the parser helper
`check_overflow` (the parser module is not among the sources); the spec
says only that it fails when the value does not fit in 8 bits, so the
message text here is a stand-in. -/
def overflow_error : PassError := .parseError "Overflow: value does not fit in one byte"

/-- Modelled from the spec: `parser::check_overflow(lexer, n)` returns `n`
as a `u8`, "fails when n does not fit in 8 bits" (spec section 6).  The
parser module is not among the sources. -/
def check_overflow (n : Nat) : Except PassError Nat :=
  if n < 256 then .ok n else .error overflow_error

/-- A `u16` `+=` update of the location counter: Rust aborts on overflow
(debug-profile semantics); the spec leaves wrap-around past `0xFFFF`
undefined. -/
def bump (addr k : Nat) : Except PassError Nat :=
  if addr + k ≤ 65535 then .ok (addr + k) else .error (.panicked "attempt to add with overflow")

/-- Rust `str::to_lowercase`, as applied to the mnemonic in `first_pass`:
modelled as the ASCII character-wise case mapping (the strings it is
compared against are ASCII). -/
def to_lowercase (s : String) : String := ⟨s.data.map Char.toLower⟩

/-- The state threaded through the first pass loop: the symbol table, the
annotated lines emitted so far and the location counter `addr`. -/
structure PassState where
  symbol_table : List (String × Nat)
  lines : List AnnotatedLine
  addr : Nat
deriving DecidableEq, Repr

/-- The `opcode_c_01!` macro of `pass_1.rs`: given the base opcode byte for
a cc=01 mnemonic, the mnemonic text (for the error message) and the
addressing mode, produce the final opcode byte, the instruction argument
and the extra location-counter increment performed after the initial
`addr += 1` (1 for one-byte operands, 2 for two-byte operands). -/
def opcode_c_01 (opc : Nat) (mnemonic : String) (mode : AddressingMode) :
    Except PassError (Nat × InstructionArg × Nat) :=
  match mode with
  | .IndirectX a =>
    match a with
    | .Literal n => do
        let b ← check_overflow n
        .ok (opc ||| 0b00000000, .ByteArg b, 1)
    | .Label l => .ok (opc ||| 0b00000000, .ByteLabelArg l, 1)
  | .ZeroPage a =>
    match a with
    | .Literal n => do
        let b ← check_overflow n
        .ok (opc ||| 0b00000100, .ByteArg b, 1)
    | .Label l => .ok (opc ||| 0b00000100, .ByteLabelArg l, 1)
  | .Immediate i =>
    match i with
    | .Literal n => .ok (opc ||| 0b00001000, .ByteArg n, 1)
    | .Label l => .ok (opc ||| 0b00001000, .ByteLabelArg l, 1)
    | .LowByte l => .ok (opc ||| 0b00001000, .ByteLabelLowArg l, 1)
    | .HighByte l => .ok (opc ||| 0b00001000, .ByteLabelHighArg l, 1)
  | .Absolute a =>
    match a with
    | .Literal n => .ok (opc ||| 0b00001100, .WordArg n, 2)
    | .Label l => .ok (opc ||| 0b00001100, .WordLabelArg l, 2)
  | .IndirectY a =>
    match a with
    | .Literal n => do
        let b ← check_overflow n
        .ok (opc ||| 0b00010000, .ByteArg b, 1)
    | .Label l => .ok (opc ||| 0b00010000, .ByteLabelArg l, 1)
  | .ZeroPageX a =>
    match a with
    | .Literal n => do
        let b ← check_overflow n
        .ok (opc ||| 0b00010100, .ByteArg b, 1)
    | .Label l => .ok (opc ||| 0b00010100, .ByteLabelArg l, 1)
  | .AbsoluteY a =>
    match a with
    | .Literal n => .ok (opc ||| 0b00011000, .WordArg n, 2)
    | .Label l => .ok (opc ||| 0b00011000, .WordLabelArg l, 2)
  | .AbsoluteX a =>
    match a with
    | .Literal n => .ok (opc ||| 0b00011100, .WordArg n, 2)
    | .Label l => .ok (opc ||| 0b00011100, .WordLabelArg l, 2)
  | _ => .error (.parseError ("Invalid argument for opcode '" ++ mnemonic ++ "'"))

/-- The body of the `Pragma::Bytes` loop: push one annotated line per byte,
incrementing the location counter after each. -/
def push_bytes (st : PassState) : List Nat → Except PassError PassState
  | [] => .ok st
  | b :: rest => do
      let a1 ← bump st.addr 1
      push_bytes { st with lines := st.lines ++ [⟨st.addr, b, .NoArgs⟩], addr := a1 } rest

/-- The `match instr.opcode.to_lowercase().as_str()` dispatch of
`first_pass` in `pass_1.rs`: selects the `opcode_c_01!` expansion for the
eight cc=01 mnemonics and fails with "Invalid opcode" otherwise.  The
string match is rendered as an equality chain. -/
def instruction_dispatch (instr : ParsedInstruction) : Except PassError (Nat × InstructionArg × Nat) :=
  if to_lowercase instr.opcode = "ora" then opcode_c_01 0b00000001 instr.opcode instr.addr_mode
  else if to_lowercase instr.opcode = "and" then opcode_c_01 0b00000101 instr.opcode instr.addr_mode
  else if to_lowercase instr.opcode = "eor" then opcode_c_01 0b00001001 instr.opcode instr.addr_mode
  else if to_lowercase instr.opcode = "adc" then opcode_c_01 0b00001101 instr.opcode instr.addr_mode
  else if to_lowercase instr.opcode = "sta" then opcode_c_01 0b00010001 instr.opcode instr.addr_mode
  else if to_lowercase instr.opcode = "lda" then opcode_c_01 0b00010101 instr.opcode instr.addr_mode
  else if to_lowercase instr.opcode = "cmp" then opcode_c_01 0b00011001 instr.opcode instr.addr_mode
  else if to_lowercase instr.opcode = "sbc" then opcode_c_01 0b00011101 instr.opcode instr.addr_mode
  else .error (.parseError ("Invalid opcode '" ++ instr.opcode ++ "'"))

/-- One iteration of the `first_pass` loop of `pass_1.rs`, processing a
single parsed line. -/
def first_pass_line (st : PassState) (line : ParsedLine) : Except PassError PassState :=
  if line.label ≠ "" then do
    let t ← add_symbol st.symbol_table line.label st.addr
    .ok { st with symbol_table := t }
  else
    match line.value with
    | .Instruction instr => do
        let enc ← instruction_dispatch instr
        let a1 ← bump st.addr 1
        let a2 ← bump a1 enc.2.2
        .ok { st with lines := st.lines ++ [⟨st.addr, enc.1, enc.2.1⟩], addr := a2 }
    | .Pragma p =>
      match p with
      | .Byte b => do
          let a1 ← bump st.addr 1
          .ok { st with lines := st.lines ++ [⟨st.addr, b, .NoArgs⟩], addr := a1 }
      | .Bytes bs => push_bytes st bs
      | .Word w => do
          let word ←
            match w with
            | .Label l =>
              match lookupSym st.symbol_table l with
              | some v => Except.ok v
              | none => Except.error (.parseError ("Setting origin to value of undefined label " ++ l))
            | .Literal v => Except.ok v
          let a1 ← bump st.addr 1
          let a2 ← bump a1 1
          .ok { st with
                lines := st.lines ++
                  [⟨st.addr, word % 256, .NoArgs⟩, ⟨a1, (word >>> 8) % 256, .NoArgs⟩],
                addr := a2 }
      | .Origin a =>
        match a with
        | .Label l =>
          match lookupSym st.symbol_table l with
          | some v => .ok { st with addr := v }
          | none => .error (.parseError ("Setting origin to value of undefined label " ++ l))
        | .Literal v => .ok { st with addr := v }
      | .Define label a =>
        match a with
        | .Label s =>
          match lookupSym st.symbol_table s with
          | some v => do
              let t ← add_symbol st.symbol_table label v
              .ok { st with symbol_table := t }
          | none =>
              .error (.parseError ("Setting label " ++ label ++ " to value of undefined label " ++ s))
        | .Literal n => do
            let t ← add_symbol st.symbol_table label n
            .ok { st with symbol_table := t }
      | .Include _ => .error (.panicked "not yet implemented")
    | .None => .ok st

/-- The `while let` loop of `first_pass`, iterating `first_pass_line` over
the parsed lines. -/
def first_pass_loop (st : PassState) : List ParsedLine → Except PassError PassState
  | [] => .ok st
  | line :: rest => do
      let st1 ← first_pass_line st line
      first_pass_loop st1 rest

/-- Performs the first pass on the code (`first_pass` in `pass_1.rs`).  The
input is the stream of lines the parser would yield. -/
def first_pass (prog : List ParsedLine) : Except PassError FirstPassResult := do
  let st ← first_pass_loop ⟨[], [], 0⟩ prog
  .ok ⟨st.lines, st.symbol_table⟩

/-! ### Specification-side definitions (section 4.1 tables and derived notions) -/

/-- The `aaa` bits of a cc=01 mnemonic, from the first table of spec
section 4.1 (spec side, for comparison with the encoder). -/
def aaa_spec (s : String) : Option Nat :=
  if s = "ora" then some 0
  else if s = "and" then some 1
  else if s = "eor" then some 2
  else if s = "adc" then some 3
  else if s = "sta" then some 4
  else if s = "lda" then some 5
  else if s = "cmp" then some 6
  else if s = "sbc" then some 7
  else none

/-- The `bbb` bits of an addressing mode for cc=01, from the second table
of spec section 4.1 (spec side); `none` for the modes outside the table. -/
def bbb_spec : AddressingMode → Option Nat
  | .IndirectX _ => some 0
  | .ZeroPage _ => some 1
  | .Immediate _ => some 2
  | .Absolute _ => some 3
  | .IndirectY _ => some 4
  | .ZeroPageX _ => some 5
  | .AbsoluteY _ => some 6
  | .AbsoluteX _ => some 7
  | _ => none

/-- Instruction size in bytes of an addressing mode for cc=01, from the
second table of spec section 4.1 (spec side). -/
def size_spec : AddressingMode → Option Nat
  | .IndirectX _ => some 2
  | .ZeroPage _ => some 2
  | .Immediate _ => some 2
  | .Absolute _ => some 3
  | .IndirectY _ => some 2
  | .ZeroPageX _ => some 2
  | .AbsoluteY _ => some 3
  | .AbsoluteX _ => some 3
  | _ => none

/-- The cc=01 addressing modes with a 1-byte operand slot that take an
`Address` operand (immediate is handled separately). -/
def byte_slot_modes : List (Address → AddressingMode) :=
  [.IndirectX, .ZeroPage, .IndirectY, .ZeroPageX]

/-- The cc=01 addressing modes with a 2-byte operand slot. -/
def word_slot_modes : List (Address → AddressingMode) :=
  [.Absolute, .AbsoluteY, .AbsoluteX]

/-- The number of output bytes an instruction argument stands for,
including the opcode byte. -/
def arg_size : InstructionArg → Nat
  | .NoArgs => 1
  | .ByteArg _ => 2
  | .ByteLabelArg _ => 2
  | .ByteLabelLowArg _ => 2
  | .ByteLabelHighArg _ => 2
  | .WordArg _ => 3
  | .WordLabelArg _ => 3

/-- The byte-size of an annotated line. -/
def line_size (l : AnnotatedLine) : Nat := arg_size l.arg

/-- Whether a parsed line carries an `Origin` pragma. -/
def is_origin (line : ParsedLine) : Bool :=
  match line.value with
  | .Pragma (.Origin _) => true
  | _ => false

/-- A program with no `Origin` pragma on any line. -/
def no_origin (prog : List ParsedLine) : Prop :=
  ∀ line ∈ prog, is_origin line = false

instance (prog : List ParsedLine) : Decidable (no_origin prog) :=
  inferInstanceAs (Decidable (∀ line ∈ prog, is_origin line = false))

/-- Two parsed lines that agree everywhere except possibly in the letter
case of an instruction mnemonic. -/
def mnem_equiv (p q : ParsedLine) : Prop :=
  p.label = q.label ∧
    ((∃ m₁ m₂ md, to_lowercase m₁ = to_lowercase m₂ ∧
        p.value = .Instruction ⟨m₁, md⟩ ∧ q.value = .Instruction ⟨m₂, md⟩) ∨
      p.value = q.value)

/-! ### Generic helper lemmas about `Except` -/

theorem ok_bind {α β : Type} (a : α) (f : α → Except PassError β) :
    (Except.ok a >>= f) = f a := rfl

theorem error_bind {α β : Type} (e : PassError) (f : α → Except PassError β) :
    ((Except.error e : Except PassError α) >>= f) = Except.error e := rfl

theorem bind_eq_ok_iff {α β : Type} (x : Except PassError α) (f : α → Except PassError β)
    (b : β) : (x >>= f) = .ok b ↔ ∃ a, x = .ok a ∧ f a = .ok b := by
  cases x <;> simp [ok_bind, error_bind]

theorem bump_ok (a k : Nat) (h : a + k ≤ 65535) : bump a k = .ok (a + k) := by
  simp [bump, h]

theorem bump_eq_ok {a k r : Nat} (h : bump a k = .ok r) : r = a + k ∧ a + k ≤ 65535 := by
  by_cases hle : a + k ≤ 65535
  · rw [bump_ok _ _ hle] at h
    exact ⟨(Except.ok.inj h).symm, hle⟩
  · unfold bump at h
    rw [if_neg hle] at h
    exact absurd h (by simp)

/-! ### Emission structure of a single first-pass step -/

theorem opcode_c_01_arg_size (c : Nat) (m : String) (md : AddressingMode) (o : Nat)
    (ar : InstructionArg) (e : Nat) (h : opcode_c_01 c m md = .ok (o, ar, e)) :
    arg_size ar = e + 1 := by
  cases md with
  | Implied => exact absurd h (by simp [opcode_c_01])
  | Accumulator => exact absurd h (by simp [opcode_c_01])
  | ZeroPageY x => exact absurd h (by simp [opcode_c_01])
  | Indirect x => exact absurd h (by simp [opcode_c_01])
  | Relative x => exact absurd h (by simp [opcode_c_01])
  | Immediate i =>
    cases i <;>
    · simp only [opcode_c_01, Except.ok.injEq, Prod.mk.injEq] at h
      obtain ⟨h1, h2, h3⟩ := h
      subst h2
      subst h3
      rfl
  | IndirectX x =>
    cases x with
    | Literal n =>
        simp only [opcode_c_01] at h
        rcases hco : check_overflow n with er | b
        · rw [hco, error_bind] at h
          exact absurd h (by simp)
        · rw [hco, ok_bind] at h
          simp only [Except.ok.injEq, Prod.mk.injEq] at h
          obtain ⟨h1, h2, h3⟩ := h
          subst h2
          subst h3
          rfl
    | Label l =>
        simp only [opcode_c_01, Except.ok.injEq, Prod.mk.injEq] at h
        obtain ⟨h1, h2, h3⟩ := h
        subst h2
        subst h3
        rfl
  | ZeroPage x =>
    cases x with
    | Literal n =>
        simp only [opcode_c_01] at h
        rcases hco : check_overflow n with er | b
        · rw [hco, error_bind] at h
          exact absurd h (by simp)
        · rw [hco, ok_bind] at h
          simp only [Except.ok.injEq, Prod.mk.injEq] at h
          obtain ⟨h1, h2, h3⟩ := h
          subst h2
          subst h3
          rfl
    | Label l =>
        simp only [opcode_c_01, Except.ok.injEq, Prod.mk.injEq] at h
        obtain ⟨h1, h2, h3⟩ := h
        subst h2
        subst h3
        rfl
  | IndirectY x =>
    cases x with
    | Literal n =>
        simp only [opcode_c_01] at h
        rcases hco : check_overflow n with er | b
        · rw [hco, error_bind] at h
          exact absurd h (by simp)
        · rw [hco, ok_bind] at h
          simp only [Except.ok.injEq, Prod.mk.injEq] at h
          obtain ⟨h1, h2, h3⟩ := h
          subst h2
          subst h3
          rfl
    | Label l =>
        simp only [opcode_c_01, Except.ok.injEq, Prod.mk.injEq] at h
        obtain ⟨h1, h2, h3⟩ := h
        subst h2
        subst h3
        rfl
  | ZeroPageX x =>
    cases x with
    | Literal n =>
        simp only [opcode_c_01] at h
        rcases hco : check_overflow n with er | b
        · rw [hco, error_bind] at h
          exact absurd h (by simp)
        · rw [hco, ok_bind] at h
          simp only [Except.ok.injEq, Prod.mk.injEq] at h
          obtain ⟨h1, h2, h3⟩ := h
          subst h2
          subst h3
          rfl
    | Label l =>
        simp only [opcode_c_01, Except.ok.injEq, Prod.mk.injEq] at h
        obtain ⟨h1, h2, h3⟩ := h
        subst h2
        subst h3
        rfl
  | Absolute x =>
    cases x <;>
    · simp only [opcode_c_01, Except.ok.injEq, Prod.mk.injEq] at h
      obtain ⟨h1, h2, h3⟩ := h
      subst h2
      subst h3
      rfl
  | AbsoluteY x =>
    cases x <;>
    · simp only [opcode_c_01, Except.ok.injEq, Prod.mk.injEq] at h
      obtain ⟨h1, h2, h3⟩ := h
      subst h2
      subst h3
      rfl
  | AbsoluteX x =>
    cases x <;>
    · simp only [opcode_c_01, Except.ok.injEq, Prod.mk.injEq] at h
      obtain ⟨h1, h2, h3⟩ := h
      subst h2
      subst h3
      rfl

theorem instruction_dispatch_ok (instr : ParsedInstruction) (x : Nat × InstructionArg × Nat)
    (h : instruction_dispatch instr = .ok x) :
    ∃ c, opcode_c_01 c instr.opcode instr.addr_mode = .ok x := by
  unfold instruction_dispatch at h
  split_ifs at h
  all_goals exact ⟨_, h⟩

theorem push_bytes_emits (bs : List Nat) (st st₁ : PassState)
    (h : push_bytes st bs = .ok st₁) :
    ∃ new, st₁.lines = st.lines ++ new ∧
      (∀ (k : Nat) (hk : k < new.length), (new.get ⟨k, hk⟩).addr = st.addr + k) ∧
      st₁.addr = st.addr + (new.map line_size).sum := by
  induction bs generalizing st with
  | nil =>
      simp only [push_bytes, Except.ok.injEq] at h
      subst h
      refine ⟨[], by simp, ?_, by simp⟩
      intro k hk
      exact absurd hk (by simp)
  | cons b rest ih =>
      simp only [push_bytes] at h
      rcases (bind_eq_ok_iff _ _ _).mp h with ⟨a1, hb, hrest⟩
      obtain ⟨ha1, hle1⟩ := bump_eq_ok hb
      subst ha1
      obtain ⟨new1, hl1, hget1, hsum1⟩ := ih _ hrest
      refine ⟨⟨st.addr, b, .NoArgs⟩ :: new1, ?_, ?_, ?_⟩
      · rw [hl1]
        simp
      · intro k hk
        cases k with
        | zero => simp [List.get]
        | succ k =>
            have hk1 : k < new1.length := by simpa using hk
            have := hget1 k hk1
            simp only [List.get] at this ⊢
            simp at this ⊢
            omega
      · simp only [hsum1, List.map_cons, List.sum_cons, line_size, arg_size]
        omega

theorem first_pass_line_emits (st : PassState) (line : ParsedLine) (st₁ : PassState)
    (h : first_pass_line st line = .ok st₁) :
    ∃ new, st₁.lines = st.lines ++ new ∧
      (∀ (k : Nat) (hk : k < new.length), (new.get ⟨k, hk⟩).addr = st.addr + k) ∧
      (is_origin line = false → st₁.addr = st.addr + (new.map line_size).sum) := by
  obtain ⟨lab, v⟩ := line
  by_cases hlab : lab = ""
  · subst hlab
    simp only [first_pass_line] at h
    rw [if_neg (by simp)] at h
    cases v with
    | None =>
        have hst := Except.ok.inj h
        subst hst
        refine ⟨[], by simp, ?_, by simp⟩
        intro k hk
        exact absurd hk (by simp)
    | Instruction instr =>
        rcases (bind_eq_ok_iff _ _ _).mp h with ⟨enc, henc, h2⟩
        rcases (bind_eq_ok_iff _ _ _).mp h2 with ⟨a1, hb1, h3⟩
        rcases (bind_eq_ok_iff _ _ _).mp h3 with ⟨a2, hb2, h4⟩
        obtain ⟨o, ar, e⟩ := enc
        obtain ⟨c, hc⟩ := instruction_dispatch_ok _ _ henc
        have hsz : arg_size ar = e + 1 := opcode_c_01_arg_size _ _ _ _ _ _ hc
        obtain ⟨ha1, hle1⟩ := bump_eq_ok hb1
        obtain ⟨ha2, hle2⟩ := bump_eq_ok hb2
        have ha2e : a2 = a1 + e := ha2
        have hst := Except.ok.inj h4
        subst hst
        refine ⟨[⟨st.addr, o, ar⟩], by simp, ?_, ?_⟩
        · intro k hk
          have hk0 : k = 0 := by simpa using Nat.lt_one_iff.mp (by simpa using hk)
          subst hk0
          simp [List.get]
        · intro _
          simp only [List.map_cons, List.map_nil, List.sum_cons, List.sum_nil, line_size]
          simp only [hsz]
          omega
    | Pragma p =>
      cases p with
      | Byte b =>
          rcases (bind_eq_ok_iff _ _ _).mp h with ⟨a1, hb1, h2⟩
          obtain ⟨ha1, hle1⟩ := bump_eq_ok hb1
          have hst := Except.ok.inj h2
          subst hst
          refine ⟨[⟨st.addr, b, .NoArgs⟩], by simp, ?_, ?_⟩
          · intro k hk
            have hk0 : k = 0 := by simpa using Nat.lt_one_iff.mp (by simpa using hk)
            subst hk0
            simp [List.get]
          · intro _
            simp only [List.map_cons, List.map_nil, List.sum_cons, List.sum_nil, line_size,
              arg_size]
            omega
      | Bytes bs =>
          obtain ⟨new, h1, h2, h3⟩ := push_bytes_emits bs st st₁ h
          exact ⟨new, h1, h2, fun _ => h3⟩
      | Word w =>
          have hcont : ∀ (word : Nat),
              (bump st.addr 1 >>= fun a1 =>
                bump a1 1 >>= fun a2 =>
                Except.ok { st with
                  lines := st.lines ++
                    [⟨st.addr, word % 256, .NoArgs⟩, ⟨a1, (word >>> 8) % 256, .NoArgs⟩],
                  addr := a2 }) = .ok st₁ →
              ∃ new, st₁.lines = st.lines ++ new ∧
                (∀ (k : Nat) (hk : k < new.length), (new.get ⟨k, hk⟩).addr = st.addr + k) ∧
                (is_origin ⟨"", .Pragma (.Word w)⟩ = false →
                  st₁.addr = st.addr + (new.map line_size).sum) := by
            intro word hh
            rcases (bind_eq_ok_iff _ _ _).mp hh with ⟨a1, hb1, h3⟩
            rcases (bind_eq_ok_iff _ _ _).mp h3 with ⟨a2, hb2, h4⟩
            obtain ⟨ha1, hle1⟩ := bump_eq_ok hb1
            obtain ⟨ha2, hle2⟩ := bump_eq_ok hb2
            subst ha1
            have hst := Except.ok.inj h4
            subst hst
            refine ⟨[⟨st.addr, word % 256, .NoArgs⟩, ⟨st.addr + 1, (word >>> 8) % 256, .NoArgs⟩],
              by simp, ?_, ?_⟩
            · intro k hk
              have hk2 : k < 2 := by simpa using hk
              interval_cases k <;> simp [List.get]
            · intro _
              simp only [List.map_cons, List.map_nil, List.sum_cons, List.sum_nil, line_size,
                arg_size]
              omega
          cases w with
          | Literal n =>
              dsimp only at h
              rw [ok_bind] at h
              exact hcont n h
          | Label l =>
              dsimp only at h
              rcases hl : lookupSym st.symbol_table l with _ | wv
              · rw [hl] at h
                dsimp only at h
                rw [error_bind] at h
                exact absurd h (by simp)
              · rw [hl] at h
                dsimp only at h
                rw [ok_bind] at h
                exact hcont wv h
      | Origin a =>
          cases a with
          | Literal n =>
              have hst := Except.ok.inj h
              subst hst
              refine ⟨[], by simp, ?_, ?_⟩
              · intro k hk
                exact absurd hk (by simp)
              · intro hfalse
                simp [is_origin] at hfalse
          | Label l =>
              dsimp only at h
              rcases hl : lookupSym st.symbol_table l with _ | wv
              · rw [hl] at h
                exact absurd h (by simp)
              · rw [hl] at h
                have hst := Except.ok.inj h
                subst hst
                refine ⟨[], by simp, ?_, ?_⟩
                · intro k hk
                  exact absurd hk (by simp)
                · intro hfalse
                  simp [is_origin] at hfalse
      | Define label a =>
          cases a with
          | Literal n =>
              rcases (bind_eq_ok_iff _ _ _).mp h with ⟨t, ht, h2⟩
              have hst := Except.ok.inj h2
              subst hst
              refine ⟨[], by simp, ?_, by simp⟩
              intro k hk
              exact absurd hk (by simp)
          | Label s =>
              dsimp only at h
              rcases hl : lookupSym st.symbol_table s with _ | wv
              · rw [hl] at h
                exact absurd h (by simp)
              · rw [hl] at h
                rcases (bind_eq_ok_iff _ _ _).mp h with ⟨t, ht, h2⟩
                have hst := Except.ok.inj h2
                subst hst
                refine ⟨[], by simp, ?_, by simp⟩
                intro k hk
                exact absurd hk (by simp)
      | Include p => exact absurd h (by simp)
  · simp only [first_pass_line] at h
    rw [if_pos (by simpa using hlab)] at h
    rcases (bind_eq_ok_iff _ _ _).mp h with ⟨t, ht, h2⟩
    have hst := Except.ok.inj h2
    subst hst
    refine ⟨[], by simp, ?_, by simp⟩
    intro k hk
    exact absurd hk (by simp)

/-! ### C1: the cc=01 opcode byte against the section 4.1 tables -/

/-- C1: evaluation of the first pass at the failing input `lda #42`.  The
emitted opcode byte is 0x1D (29): the base literals of `pass_1.rs` place
the `aaa` bits of the mnemonic in the `bbb` slot (bits 4..2) and the mode
bits are or-ed over them, so the result is not
`(aaa <<< 5) ||| (bbb <<< 2) ||| 0b01 = 0xA9` (169) as the section 4.1
tables (aaa(lda) = 5, bbb(immediate) = 2) require. -/
theorem first_pass_lda_immediate_eval :
    first_pass [⟨"", .Instruction ⟨"lda", .Immediate (.Literal 42)⟩⟩] =
        .ok ⟨[⟨0, 29, .ByteArg 42⟩], []⟩ ∧
      ((5 <<< 5) ||| (2 <<< 2) ||| 0b01 : Nat) = 169 ∧ (29 : Nat) ≠ 169 := by
  refine ⟨?_, by decide, by decide⟩
  decide

/-! ### C5: a labelled line binds the label and skips the line value -/

/-- C5: a parsed line with a non-empty label (not yet in the symbol table)
binds that label to the current location counter and does not process the
line's value: the location counter and the annotated-line list are
unchanged and the symbol table gains exactly that one binding. -/
theorem labeled_line_binds_only (st : PassState) (l : String) (v : LineValue)
    (hne : l ≠ "") (hfresh : lookupSym st.symbol_table l = none) :
    first_pass_line st ⟨l, v⟩ =
      .ok { st with symbol_table := (l, st.addr) :: st.symbol_table } := by
  simp [first_pass_line, add_symbol, hne, hfresh, ok_bind]

/-- Witness for C5 at a concrete input. -/
theorem labeled_line_binds_only_witness :
    first_pass_line ⟨[], [], 7⟩ ⟨"loop", .Pragma (.Byte 1)⟩ =
      .ok ⟨[("loop", 7)], [], 7⟩ :=
  labeled_line_binds_only ⟨[], [], 7⟩ "loop" (.Pragma (.Byte 1)) (by decide) rfl

/-! ### C7: the Origin pragma -/

/-- C7: an `Origin` pragma sets the location counter to the resolved
address — failing when the operand is a label not already in the symbol
table — appends no annotated line, and leaves the symbol table and the
annotated-line list unchanged. -/
theorem origin_pragma_sets_counter :
    (∀ (st : PassState) (a : Nat),
        first_pass_line st ⟨"", .Pragma (.Origin (.Literal a))⟩ = .ok { st with addr := a }) ∧
    (∀ (st : PassState) (l : String) (w : Nat), lookupSym st.symbol_table l = some w →
        first_pass_line st ⟨"", .Pragma (.Origin (.Label l))⟩ = .ok { st with addr := w }) ∧
    (∀ (st : PassState) (l : String), lookupSym st.symbol_table l = none →
        first_pass_line st ⟨"", .Pragma (.Origin (.Label l))⟩ =
          .error (.parseError ("Setting origin to value of undefined label " ++ l))) := by
  refine ⟨?_, ?_, ?_⟩
  · intro st a
    simp [first_pass_line]
  · intro st l w h
    simp [first_pass_line, h]
  · intro st l h
    simp [first_pass_line, h]

/-- Witness for C7 at concrete inputs. -/
theorem origin_pragma_sets_counter_witness :
    first_pass_line ⟨[("x", 768)], [], 0⟩ ⟨"", .Pragma (.Origin (.Label "x"))⟩ =
      .ok ⟨[("x", 768)], [], 768⟩ :=
  origin_pragma_sets_counter.2.1 ⟨[("x", 768)], [], 0⟩ "x" 768 rfl

/-! ### C2: operand translation of the cc=01 encoder -/

/-- C2: for any cc=01 base opcode and mnemonic text, the encoder translates
operands independently of the mnemonic: in a 1-byte operand slot
(indirect-X, zero-page, indirect-Y, zero-page-X) a literal address in
range is emitted as `ByteArg` (the source name of the spec's ByteLiteral)
and an out-of-range literal fails with the overflow error, while a label
becomes `ByteLabelArg`; in a 2-byte slot (absolute, absolute-Y,
absolute-X) a literal becomes `WordArg` with no range check and a label
becomes `WordLabelArg`; in immediate mode the four `ImmediateValue`
variants map to `ByteArg`, `ByteLabelArg`, `ByteLabelLowArg` and
`ByteLabelHighArg` respectively. -/
theorem opcode_c_01_operand_translation (opc : Nat) (m : String) :
    (∀ mk ∈ byte_slot_modes, ∀ n : Nat,
        (n < 256 → ∃ o, opcode_c_01 opc m (mk (.Literal n)) = .ok (o, .ByteArg n, 1)) ∧
        (256 ≤ n → opcode_c_01 opc m (mk (.Literal n)) = .error overflow_error)) ∧
    (∀ mk ∈ byte_slot_modes, ∀ l : String,
        ∃ o, opcode_c_01 opc m (mk (.Label l)) = .ok (o, .ByteLabelArg l, 1)) ∧
    (∀ mk ∈ word_slot_modes, ∀ n : Nat,
        ∃ o, opcode_c_01 opc m (mk (.Literal n)) = .ok (o, .WordArg n, 2)) ∧
    (∀ mk ∈ word_slot_modes, ∀ l : String,
        ∃ o, opcode_c_01 opc m (mk (.Label l)) = .ok (o, .WordLabelArg l, 2)) ∧
    (∀ n : Nat, ∃ o, opcode_c_01 opc m (.Immediate (.Literal n)) = .ok (o, .ByteArg n, 1)) ∧
    (∀ l : String, ∃ o, opcode_c_01 opc m (.Immediate (.Label l)) = .ok (o, .ByteLabelArg l, 1)) ∧
    (∀ l : String,
        ∃ o, opcode_c_01 opc m (.Immediate (.LowByte l)) = .ok (o, .ByteLabelLowArg l, 1)) ∧
    (∀ l : String,
        ∃ o, opcode_c_01 opc m (.Immediate (.HighByte l)) = .ok (o, .ByteLabelHighArg l, 1)) := by
  refine ⟨?_, ?_, ?_, ?_, fun n => ⟨_, rfl⟩, fun l => ⟨_, rfl⟩, fun l => ⟨_, rfl⟩,
    fun l => ⟨_, rfl⟩⟩
  · intro mk hmk n
    have hmk4 : mk = AddressingMode.IndirectX ∨ mk = AddressingMode.ZeroPage ∨
        mk = AddressingMode.IndirectY ∨ mk = AddressingMode.ZeroPageX := by
      simpa [byte_slot_modes] using hmk
    constructor
    · intro h
      rcases hmk4 with rfl | rfl | rfl | rfl
      · exact ⟨opc ||| 0, by simp [opcode_c_01, check_overflow, h, ok_bind]⟩
      · exact ⟨opc ||| 4, by simp [opcode_c_01, check_overflow, h, ok_bind]⟩
      · exact ⟨opc ||| 16, by simp [opcode_c_01, check_overflow, h, ok_bind]⟩
      · exact ⟨opc ||| 20, by simp [opcode_c_01, check_overflow, h, ok_bind]⟩
    · intro h
      have h2 : ¬ n < 256 := Nat.not_lt.mpr h
      rcases hmk4 with rfl | rfl | rfl | rfl <;>
        simp [opcode_c_01, check_overflow, h2, error_bind]
  · intro mk hmk l
    have hmk4 : mk = AddressingMode.IndirectX ∨ mk = AddressingMode.ZeroPage ∨
        mk = AddressingMode.IndirectY ∨ mk = AddressingMode.ZeroPageX := by
      simpa [byte_slot_modes] using hmk
    rcases hmk4 with rfl | rfl | rfl | rfl <;> exact ⟨_, rfl⟩
  · intro mk hmk n
    have hmk3 : mk = AddressingMode.Absolute ∨ mk = AddressingMode.AbsoluteY ∨
        mk = AddressingMode.AbsoluteX := by
      simpa [word_slot_modes] using hmk
    rcases hmk3 with rfl | rfl | rfl <;> exact ⟨_, rfl⟩
  · intro mk hmk l
    have hmk3 : mk = AddressingMode.Absolute ∨ mk = AddressingMode.AbsoluteY ∨
        mk = AddressingMode.AbsoluteX := by
      simpa [word_slot_modes] using hmk
    rcases hmk3 with rfl | rfl | rfl <;> exact ⟨_, rfl⟩

/-- Witness for C2 at concrete inputs. -/
theorem opcode_c_01_operand_translation_witness :
    ∃ o, opcode_c_01 21 "lda" (.IndirectX (.Literal 7)) = .ok (o, .ByteArg 7, 1) :=
  ((opcode_c_01_operand_translation 21 "lda").1 AddressingMode.IndirectX
    (by simp [byte_slot_modes]) 7).1 (by decide)

/-! ### C3: addressing modes outside the cc=01 table are rejected -/

/-- C3: for any of the eight cc=01 mnemonics (in any letter case), an
addressing mode outside the eight-entry `bbb` table (captured by
`bbb_spec` being `none`: Implied, Accumulator, ZeroPageY, Indirect or
Relative) makes the first pass fail with the error message "Invalid
argument for opcode" carrying the mnemonic text; the error return means no
annotated line is appended for that instruction. -/
theorem cc01_invalid_addressing_mode (st : PassState) (m : String) (md : AddressingMode)
    (hm : (aaa_spec (to_lowercase m)).isSome = true) (hmd : bbb_spec md = none) :
    first_pass_line st ⟨"", .Instruction ⟨m, md⟩⟩ =
      .error (.parseError ("Invalid argument for opcode '" ++ m ++ "'")) := by
  have hbad : ∀ c : Nat,
      opcode_c_01 c m md =
        .error (.parseError ("Invalid argument for opcode '" ++ m ++ "'")) := by
    intro c
    cases md <;> simp_all [bbb_spec, opcode_c_01]
  have hm8 : to_lowercase m = "ora" ∨ to_lowercase m = "and" ∨ to_lowercase m = "eor" ∨
      to_lowercase m = "adc" ∨ to_lowercase m = "sta" ∨ to_lowercase m = "lda" ∨
      to_lowercase m = "cmp" ∨ to_lowercase m = "sbc" := by
    by_contra hc
    push_neg at hc
    obtain ⟨n1, n2, n3, n4, n5, n6, n7, n8⟩ := hc
    simp [aaa_spec, n1, n2, n3, n4, n5, n6, n7, n8] at hm
  rcases hm8 with h | h | h | h | h | h | h | h <;>
    simp [first_pass_line, instruction_dispatch, h, hbad, error_bind]

/-- Witness for C3 at a concrete input. -/
theorem cc01_invalid_addressing_mode_witness :
    first_pass_line ⟨[], [], 0⟩ ⟨"", .Instruction ⟨"lda", .Implied⟩⟩ =
      .error (.parseError "Invalid argument for opcode 'lda'") :=
  cc01_invalid_addressing_mode ⟨[], [], 0⟩ "lda" .Implied (by decide) rfl

/-! ### C4: the Word pragma -/

/-- C4: a `Word` pragma resolves its address immediately — failing with the
undefined-label error when the operand is a label not yet in the symbol
table, and using a literal directly — and on success appends exactly two
annotated lines at consecutive addresses, low byte of the 16-bit value
first and high byte second, advancing the location counter by 2. -/
theorem word_pragma_emits_little_endian :
    (∀ (st : PassState) (n : Nat), st.addr + 2 ≤ 65535 →
        first_pass_line st ⟨"", .Pragma (.Word (.Literal n))⟩ =
          .ok { st with
                lines := st.lines ++
                  [⟨st.addr, n % 256, .NoArgs⟩, ⟨st.addr + 1, (n >>> 8) % 256, .NoArgs⟩],
                addr := st.addr + 2 }) ∧
    (∀ (st : PassState) (l : String) (w : Nat), lookupSym st.symbol_table l = some w →
        st.addr + 2 ≤ 65535 →
        first_pass_line st ⟨"", .Pragma (.Word (.Label l))⟩ =
          .ok { st with
                lines := st.lines ++
                  [⟨st.addr, w % 256, .NoArgs⟩, ⟨st.addr + 1, (w >>> 8) % 256, .NoArgs⟩],
                addr := st.addr + 2 }) ∧
    (∀ (st : PassState) (l : String), lookupSym st.symbol_table l = none →
        first_pass_line st ⟨"", .Pragma (.Word (.Label l))⟩ =
          .error (.parseError ("Setting origin to value of undefined label " ++ l))) := by
  refine ⟨?_, ?_, ?_⟩
  · intro st n h
    have h1 : st.addr + 1 ≤ 65535 := by omega
    have h2 : st.addr + 1 + 1 ≤ 65535 := by omega
    simp [first_pass_line, ok_bind, bump_ok _ _ h1, bump_ok _ _ h2]
  · intro st l w hw h
    have h1 : st.addr + 1 ≤ 65535 := by omega
    have h2 : st.addr + 1 + 1 ≤ 65535 := by omega
    simp [first_pass_line, hw, ok_bind, bump_ok _ _ h1, bump_ok _ _ h2]
  · intro st l h
    simp [first_pass_line, h, error_bind]

/-- Witness for C4 at a concrete input (`.word $1234` giving `34 12`). -/
theorem word_pragma_emits_little_endian_witness :
    first_pass_line ⟨[], [], 0⟩ ⟨"", .Pragma (.Word (.Literal 4660))⟩ =
      .ok ⟨[], [⟨0, 52, .NoArgs⟩, ⟨1, 18, .NoArgs⟩], 2⟩ :=
  word_pragma_emits_little_endian.1 ⟨[], [], 0⟩ 4660 (by decide)

/-! ### C6: duplicate labels are fatal -/

/-- C6: binding a label name a second time — by a labelled line or by a
`Define` pragma — fails the first pass with the duplicate-label panic
"Repeated symbol"; since the pass returns an error, no bytes are emitted.
The last conjunct exhibits this on whole inputs: any program starting with
two lines labelled with the same name fails, whatever follows. -/
theorem duplicate_label_is_fatal :
    (∀ (st : PassState) (l : String) (v : LineValue), l ≠ "" →
        (lookupSym st.symbol_table l).isSome = true →
        first_pass_line st ⟨l, v⟩ = .error (.panicked "Repeated symbol")) ∧
    (∀ (st : PassState) (l : String) (n : Nat),
        (lookupSym st.symbol_table l).isSome = true →
        first_pass_line st ⟨"", .Pragma (.Define l (.Literal n))⟩ =
          .error (.panicked "Repeated symbol")) ∧
    (∀ (st : PassState) (l s : String) (w : Nat),
        (lookupSym st.symbol_table l).isSome = true →
        lookupSym st.symbol_table s = some w →
        first_pass_line st ⟨"", .Pragma (.Define l (.Label s))⟩ =
          .error (.panicked "Repeated symbol")) ∧
    (∀ (l : String) (v₁ v₂ : LineValue) (rest : List ParsedLine), l ≠ "" →
        first_pass (⟨l, v₁⟩ :: ⟨l, v₂⟩ :: rest) = .error (.panicked "Repeated symbol")) := by
  refine ⟨?_, ?_, ?_, ?_⟩
  · intro st l v hne hdup
    simp [first_pass_line, add_symbol, hne, hdup, error_bind]
  · intro st l n hdup
    simp [first_pass_line, add_symbol, hdup, error_bind]
  · intro st l s w hdup hs
    simp [first_pass_line, add_symbol, hdup, hs, error_bind]
  · intro l v₁ v₂ rest hne
    simp [first_pass, first_pass_loop, first_pass_line, add_symbol, lookupSym, hne,
      ok_bind, error_bind]

/-- Witness for C6 at a concrete input. -/
theorem duplicate_label_is_fatal_witness :
    first_pass [⟨"x", .None⟩, ⟨"x", .None⟩] = .error (.panicked "Repeated symbol") :=
  duplicate_label_is_fatal.2.2.2 "x" .None .None [] (by decide)

/-! ### C8: addresses of annotated lines are final -/

/-- C8: each annotated line emitted by a first-pass step has `addr` equal
to the location counter position at which the line is placed (the counter
value at the start of the step plus the line's offset among the bytes the
step emits), and the annotated-line list is append-only across the whole
loop, so an `addr` is never changed after its line is appended. -/
theorem annotated_line_addr_stable :
    (∀ (st : PassState) (line : ParsedLine) (st₁ : PassState),
        first_pass_line st line = .ok st₁ →
        ∃ new, st₁.lines = st.lines ++ new ∧
          ∀ (k : Nat) (hk : k < new.length), (new.get ⟨k, hk⟩).addr = st.addr + k) ∧
    (∀ (st : PassState) (prog : List ParsedLine) (st₁ : PassState),
        first_pass_loop st prog = .ok st₁ →
        ∃ new, st₁.lines = st.lines ++ new) := by
  constructor
  · intro st line st₁ h
    obtain ⟨new, h1, h2, _⟩ := first_pass_line_emits st line st₁ h
    exact ⟨new, h1, h2⟩
  · intro st prog
    induction prog generalizing st with
    | nil =>
        intro st₁ h
        simp only [first_pass_loop, Except.ok.injEq] at h
        subst h
        exact ⟨[], by simp⟩
    | cons l rest ih =>
        intro st₁ h
        simp only [first_pass_loop] at h
        rcases (bind_eq_ok_iff _ _ _).mp h with ⟨stm, hstep, hloop⟩
        obtain ⟨new1, hl1, _, _⟩ := first_pass_line_emits _ _ _ hstep
        obtain ⟨new2, hl2⟩ := ih _ _ hloop
        refine ⟨new1 ++ new2, ?_⟩
        rw [hl2, hl1, List.append_assoc]

/-- Witness for C8 at a concrete input. -/
theorem annotated_line_addr_stable_witness :
    ∃ new, ([⟨5, 9, InstructionArg.NoArgs⟩] : List AnnotatedLine) = [] ++ new ∧
      ∀ (k : Nat) (hk : k < new.length),
        (new.get ⟨k, hk⟩).addr = (⟨[], [], 5⟩ : PassState).addr + k :=
  annotated_line_addr_stable.1 ⟨[], [], 5⟩ ⟨"", .Pragma (.Byte 9)⟩
    ⟨[], [⟨5, 9, .NoArgs⟩], 6⟩ (by decide)

/-! ### C9: byte sizes sum to the final location counter -/

/-- C9: on any input with no `Origin` pragma on which the first-pass loop
(from the initial state: empty symbol table, no lines, counter 0)
succeeds, the byte sizes of the emitted annotated lines (1 for `NoArgs`, 2
for byte-width arguments, 3 for word-width arguments) sum to the final
location counter minus its initial value 0. -/
theorem no_origin_size_sum (prog : List ParsedLine) (st₁ : PassState)
    (hno : no_origin prog) (h : first_pass_loop ⟨[], [], 0⟩ prog = .ok st₁) :
    (st₁.lines.map line_size).sum = st₁.addr - 0 := by
  have key : ∀ (p : List ParsedLine) (st stq : PassState), no_origin p →
      first_pass_loop st p = .ok stq →
      stq.addr + (st.lines.map line_size).sum = st.addr + (stq.lines.map line_size).sum := by
    intro p
    induction p with
    | nil =>
        intro st stq _ hq
        simp only [first_pass_loop, Except.ok.injEq] at hq
        subst hq
        omega
    | cons l rest ih =>
        intro st stq hno1 hq
        simp only [first_pass_loop] at hq
        rcases (bind_eq_ok_iff _ _ _).mp hq with ⟨stm, hstep, hloop⟩
        obtain ⟨new, hl, _, hsum⟩ := first_pass_line_emits _ _ _ hstep
        have h1 := hsum (hno1 l (by simp))
        have hno_rest : no_origin rest := fun x hx => hno1 x (by simp [hx])
        have h2 := ih stm stq hno_rest hloop
        have h3 : (stm.lines.map line_size).sum =
            (st.lines.map line_size).sum + (new.map line_size).sum := by
          rw [hl]
          simp
        omega
  have h0 := key prog ⟨[], [], 0⟩ st₁ hno h
  simp only [List.map_nil, List.sum_nil] at h0
  omega

/-- Witness for C9 at a concrete input. -/
theorem no_origin_size_sum_witness :
    (([⟨0, 7, InstructionArg.NoArgs⟩].map line_size).sum : Nat) = 1 - 0 :=
  no_origin_size_sum [⟨"", .Pragma (.Byte 7)⟩] ⟨[], [⟨0, 7, .NoArgs⟩], 1⟩
    (by decide) (by decide)

/-! ### C10: mnemonic dispatch and letter case -/

theorem opcode_c_01_ok_mnemonic_irrelevant (c : Nat) (m₁ m₂ : String) (md : AddressingMode)
    (x : Nat × InstructionArg × Nat) :
    opcode_c_01 c m₁ md = .ok x ↔ opcode_c_01 c m₂ md = .ok x := by
  cases md <;> first | rfl | simp [opcode_c_01]

theorem instruction_dispatch_ok_iff (m₁ m₂ : String) (md : AddressingMode)
    (hml : to_lowercase m₁ = to_lowercase m₂) (x : Nat × InstructionArg × Nat) :
    instruction_dispatch ⟨m₁, md⟩ = .ok x ↔ instruction_dispatch ⟨m₂, md⟩ = .ok x := by
  unfold instruction_dispatch
  dsimp only
  rw [hml]
  split_ifs <;> first | exact opcode_c_01_ok_mnemonic_irrelevant _ _ _ _ _ | simp

theorem first_pass_line_ok_iff (p q : ParsedLine) (hpq : mnem_equiv p q)
    (st st₁ : PassState) :
    first_pass_line st p = .ok st₁ ↔ first_pass_line st q = .ok st₁ := by
  obtain ⟨hlab, hval⟩ := hpq
  obtain ⟨pl, pv⟩ := p
  obtain ⟨ql, qv⟩ := q
  dsimp only at hlab
  subst hlab
  rcases hval with ⟨m₁, m₂, md, hml, hp, hq⟩ | hv
  · dsimp only at hp hq
    subst hp
    subst hq
    by_cases hl0 : pl = ""
    · subst hl0
      constructor
      · intro hh
        rcases (bind_eq_ok_iff _ _ _).mp hh with ⟨enc, henc, hrest⟩
        exact (bind_eq_ok_iff _ _ _).mpr
          ⟨enc, (instruction_dispatch_ok_iff m₁ m₂ md hml enc).mp henc, hrest⟩
      · intro hh
        rcases (bind_eq_ok_iff _ _ _).mp hh with ⟨enc, henc, hrest⟩
        exact (bind_eq_ok_iff _ _ _).mpr
          ⟨enc, (instruction_dispatch_ok_iff m₁ m₂ md hml enc).mpr henc, hrest⟩
    · have hstep : ∀ v, first_pass_line st ⟨pl, v⟩ =
          (add_symbol st.symbol_table pl st.addr >>= fun t =>
            .ok { st with symbol_table := t }) := by
        intro v
        simp only [first_pass_line]
        rw [if_pos (by simpa using hl0)]
      rw [hstep, hstep]
  · dsimp only at hv
    subst hv
    rfl

theorem first_pass_loop_ok_iff (p q : List ParsedLine) (hpq : List.Forall₂ mnem_equiv p q) :
    ∀ (st st₁ : PassState),
      first_pass_loop st p = .ok st₁ ↔ first_pass_loop st q = .ok st₁ := by
  induction hpq with
  | nil =>
      intro st st₁
      rfl
  | cons hline hrest ih =>
      intro st st₁
      simp only [first_pass_loop]
      rw [bind_eq_ok_iff, bind_eq_ok_iff]
      exact exists_congr fun stm =>
        and_congr (first_pass_line_ok_iff _ _ hline st stm) (ih stm st₁)

/-- C10 counterexample: replacing the mnemonic `lda` by its case variant
`LDA` does not yield an identical first-pass result on every input — the
"Invalid argument for opcode" error message carries the mnemonic in its
original spelling, so the two results differ on `lda`/`LDA` with implied
addressing. -/
theorem mnemonic_case_counterexample :
    first_pass [⟨"", .Instruction ⟨"LDA", .Implied⟩⟩] =
        .error (.parseError "Invalid argument for opcode 'LDA'") ∧
      first_pass [⟨"", .Instruction ⟨"lda", .Implied⟩⟩] =
        .error (.parseError "Invalid argument for opcode 'lda'") ∧
      first_pass [⟨"", .Instruction ⟨"LDA", .Implied⟩⟩] ≠
        first_pass [⟨"", .Instruction ⟨"lda", .Implied⟩⟩] :=
  ⟨by decide, by decide, by decide⟩

/-- C10 (amended): mnemonic dispatch is case-insensitive up to error
messages: replacing instruction mnemonics by case variants of the same
letters (equal after lowercasing) yields the same successful first-pass
result on every input, and the same success/failure behaviour; only the
text of an error message can differ (it embeds the original spelling). -/
theorem mnemonic_case_insensitive_up_to_messages (p q : List ParsedLine)
    (hpq : List.Forall₂ mnem_equiv p q) (r : FirstPassResult) :
    first_pass p = .ok r ↔ first_pass q = .ok r := by
  unfold first_pass
  rw [bind_eq_ok_iff, bind_eq_ok_iff]
  exact exists_congr fun st => and_congr (first_pass_loop_ok_iff p q hpq _ _) Iff.rfl

/-- Witness for the amended C10 at a concrete input. -/
theorem mnemonic_case_insensitive_witness :
    first_pass [⟨"", .Instruction ⟨"LDA", .Immediate (.Literal 1)⟩⟩] =
      .ok ⟨[⟨0, 29, .ByteArg 1⟩], []⟩ :=
  (mnemonic_case_insensitive_up_to_messages
    [⟨"", .Instruction ⟨"LDA", .Immediate (.Literal 1)⟩⟩]
    [⟨"", .Instruction ⟨"lda", .Immediate (.Literal 1)⟩⟩]
    (List.Forall₂.cons
      ⟨rfl, Or.inl ⟨"LDA", "lda", .Immediate (.Literal 1), by decide, rfl, rfl⟩⟩
      List.Forall₂.nil)
    ⟨[⟨0, 29, .ByteArg 1⟩], []⟩).mpr (by decide)

end Asm6502
